import Mathlib

/-!
Verification development for the fluxchat-desktop IRC client engine
(src-tauri/src/connection.rs, commands.rs, storage.rs, messages.rs).

Rust strings are modelled as `List Char`; machine integers that matter only
as opaque values (ports, timestamps) are modelled as `Nat` / `Int`.
Each definition is a direct translation of the correspondingly named Rust
item; comments cite the source location.
-/

/-- Model of Rust `str::trim` (used by `parse_message` on each inbound line):
strip whitespace from both ends.  `Char.isWhitespace` covers the ASCII
whitespace characters that occur in IRC traffic. -/
def rustTrim (s : List Char) : List Char :=
  ((s.dropWhile Char.isWhitespace).reverse.dropWhile Char.isWhitespace).reverse

/-- Model of `rest.find(' ')` followed by the two slices `rest[..idx]` /
`rest[idx+1..]` in `parse_message`: split a string at its first space,
returning `none` when no space occurs. -/
def breakAtSpace : List Char → Option (List Char × List Char)
  | [] => none
  | c :: cs =>
    if c = ' ' then some ([], cs)
    else
      match breakAtSpace cs with
      | none => none
      | some (a, b) => some (c :: a, b)

/-- Model of `rest.splitn(2, " :")` in `parse_message`: the part before the
first occurrence of the two-character token `" :"`, and (when the token
occurs) everything after it. -/
def splitOnSpaceColon : List Char → List Char × Option (List Char)
  | [] => ([], none)
  | [c] => ([c], none)
  | c1 :: c2 :: cs =>
    if c1 = ' ' ∧ c2 = ':' then ([], some cs)
    else
      let r := splitOnSpaceColon (c2 :: cs)
      (c1 :: r.1, r.2)

/-- Helper for `splitWhitespace`: accumulate the current token (reversed). -/
def splitWSAux : List Char → List Char → List (List Char)
  | [], acc => if acc = [] then [] else [acc.reverse]
  | c :: cs, acc =>
    if c.isWhitespace then
      if acc = [] then splitWSAux cs [] else acc.reverse :: splitWSAux cs []
    else splitWSAux cs (c :: acc)

/-- Model of Rust `str::split_whitespace`: whitespace-separated tokens,
empty tokens dropped. -/
def splitWhitespace (s : List Char) : List (List Char) :=
  splitWSAux s []

/-- Model of `ParsedMessage` (connection.rs:746-752).  The Rust field
`prefix` is named `pfx` here. -/
structure ParsedMessage where
  pfx : Option (List Char)
  command : List Char
  params : List (List Char)
  trailing : Option (List Char)
deriving DecidableEq

/-- Model of the post-prefix stage of `parse_message` (connection.rs:770-784):
split the remaining text at the first `" :"` into head/trailing, then
whitespace-tokenize the head into `command` (first token, or empty) and
`params` (the remaining tokens). -/
def parseBody (pf : Option (List Char)) (rest : List Char) : ParsedMessage :=
  let sp := splitOnSpaceColon rest
  let toks := splitWhitespace sp.1
  ⟨pf, toks.headD [], toks.tail, sp.2⟩

/-- Model of `parse_message` (connection.rs:754-785).  Trim the line; if it
starts with `':'` and contains a space, the prefix is the text between the
colon and the first space and the rest is parsed by `parseBody`; if it
starts with `':'` but has no space the whole trimmed line becomes the
command (degenerate case); otherwise parse the trimmed line directly. -/
def parse_message (line : List Char) : ParsedMessage :=
  let rest := rustTrim line
  match rest with
  | ':' :: _ =>
    match breakAtSpace rest with
    | some (before, after) => parseBody (some before.tail) after
    | none => ⟨none, rest, [], none⟩
  | _ => parseBody none rest

/-- Model of `extract_nick` (connection.rs:711-717): the text before the
first `'!'` (the whole prefix when no `'!'` occurs), `none` if empty. -/
def extract_nick (p : List Char) : Option (List Char) :=
  let first := p.takeWhile (fun c => c ≠ '!')
  if first = [] then none else some first

/-- Model of `char::to_ascii_lowercase`. -/
def toAsciiLower (c : Char) : Char :=
  if 'A' ≤ c ∧ c ≤ 'Z' then Char.ofNat (c.toNat + 32) else c

/-- Model of `equals_ignore_case` (connection.rs:719-721), i.e.
`str::eq_ignore_ascii_case`: equality after ASCII-lowercasing each
character. -/
def eq_ignore_ascii_case (a b : List Char) : Bool :=
  a.map toAsciiLower = b.map toAsciiLower

/-- Model of `ChannelUserInfo` (messages.rs:30-35). -/
structure ChannelUserInfo where
  nick : List Char
  modes : List (List Char)
deriving DecidableEq

/-- Role sigil table of `parse_channel_user` (connection.rs:727-733). -/
def sigilMode (c : Char) : Option (List Char) :=
  if c = '~' then some "owner".toList
  else if c = '&' then some "admin".toList
  else if c = '@' then some "op".toList
  else if c = '%' then some "halfop".toList
  else if c = '+' then some "voice".toList
  else none

/-- Model of `parse_channel_user` (connection.rs:723-744): collect leading
role sigils in order; the first non-sigil character ends the scan and the
remainder (including that character) is the nickname. -/
def parse_channel_user : List Char → ChannelUserInfo
  | [] => ⟨[], []⟩
  | c :: cs =>
    match sigilMode c with
    | some m =>
      let r := parse_channel_user cs
      ⟨r.nick, m :: r.modes⟩
    | none => ⟨c :: cs, []⟩

theorem breakAtSpace_eq_none (l : List Char) (h : ' ' ∉ l) : breakAtSpace l = none := by
  induction l with
  | nil => rfl
  | cons c cs ih =>
    have hc : c ≠ ' ' := by
      intro hc; exact h (hc ▸ List.mem_cons_self c cs)
    have hcs : ' ' ∉ cs := fun hm => h (List.mem_cons_of_mem _ hm)
    simp only [breakAtSpace, if_neg hc, ih hcs]

/-- C5: Parse is total (it is a Lean function defined for every input
string), and for every line whose trimmed form starts with `':'` and
contains no space, the result carries the whole trimmed line as `command`,
with no prefix, empty params and no trailing. -/
theorem parse_message_colon_no_space (line : List Char)
    (h1 : (rustTrim line).head? = some ':') (h2 : ' ' ∉ rustTrim line) :
    parse_message line = ⟨none, rustTrim line, [], none⟩ := by
  unfold parse_message
  cases hr : rustTrim line with
  | nil => rw [hr] at h1; simp at h1
  | cons c t =>
    rw [hr] at h1 h2
    have hc : c = ':' := by simpa using h1
    subst hc
    have hb : breakAtSpace (':' :: t) = none := breakAtSpace_eq_none _ h2
    simp only [hb]

/-- Witness for C5 at the concrete degenerate line `":abc"`. -/
theorem parse_message_colon_no_space_witness :
    (rustTrim ":abc".toList).head? = some ':' ∧ ' ' ∉ rustTrim ":abc".toList ∧
      parse_message ":abc".toList = ⟨none, rustTrim ":abc".toList, [], none⟩ :=
  ⟨by decide, by decide, parse_message_colon_no_space ":abc".toList (by decide) (by decide)⟩

theorem splitOnSpaceColon_first (t : List Char) :
    ∀ hd : List Char, ¬ ([' ', ':'] <:+: hd) →
      splitOnSpaceColon (hd ++ ' ' :: ':' :: t) = (hd, some t) := by
  intro hd
  induction hd with
  | nil =>
    intro _
    simp [splitOnSpaceColon]
  | cons c h' ih =>
    intro hni
    cases h' with
    | nil =>
      have hc : ¬ (c = ' ' ∧ ' ' = ':') := by simp
      simp [splitOnSpaceColon, hc]
    | cons d h'' =>
      have hcd : ¬ (c = ' ' ∧ d = ':') := by
        rintro ⟨rfl, rfl⟩
        exact hni ⟨[], h'', rfl⟩
      have hni' : ¬ ([' ', ':'] <:+: d :: h'') := by
        rintro ⟨s, t', hst⟩
        exact hni ⟨c :: s, t', by simp only [List.cons_append, List.append_assoc] at hst ⊢; rw [hst]⟩
      have hr := ih hni'
      simp only [List.cons_append] at hr ⊢
      simp only [splitOnSpaceColon, if_neg hcd, hr]

/-- C6: after the prefix, the text is split at the first occurrence of the
literal token `" :"` into `trailing`, with the part before whitespace-
tokenized into `command` (first token) and `params` (rest); in particular
parsing `":nick!user@host PRIVMSG #chan :hello"` yields
prefix = `nick!user@host`, command = `PRIVMSG`, params = `[#chan]`,
trailing = `hello`, and nick extraction from that prefix yields `nick`. -/
theorem parse_splits_at_first_space_colon :
    (∀ (hd t : List Char), ¬ ([' ', ':'] <:+: hd) →
      parseBody none (hd ++ ' ' :: ':' :: t) =
        ⟨none, (splitWhitespace hd).headD [], (splitWhitespace hd).tail, some t⟩)
    ∧ parse_message ":nick!user@host PRIVMSG #chan :hello".toList =
        ⟨some "nick!user@host".toList, "PRIVMSG".toList, ["#chan".toList],
          some "hello".toList⟩
    ∧ extract_nick "nick!user@host".toList = some "nick".toList := by
  refine ⟨?_, by decide, by decide⟩
  intro hd t hni
  simp only [parseBody, splitOnSpaceColon_first t hd hni]

/-- Witness for C6: the general split statement applied at the concrete
head `"PRIVMSG #chan"` and tail `"hello"`. -/
theorem parse_splits_at_first_space_colon_witness :
    parseBody none ("PRIVMSG #chan".toList ++ ' ' :: ':' :: "hello".toList) =
      ⟨none, "PRIVMSG".toList, ["#chan".toList], some "hello".toList⟩ := by
  have h := parse_splits_at_first_space_colon.1 "PRIVMSG #chan".toList "hello".toList
    (by decide)
  rw [h]; decide

/-- C8: a NAMES entry is a prefix of role sigils (collected as role tags in
sigil order) followed by the bare nickname, the first non-sigil character
terminating the scan and belonging to the nickname; in particular the
trailing `"@alice +bob carol"` decodes to alice with [op], bob with
[voice], carol with []. -/
theorem parse_channel_user_spec :
    (∀ (ss r : List Char), (∀ c ∈ ss, (sigilMode c).isSome) →
      (∀ c, r.head? = some c → sigilMode c = none) →
      parse_channel_user (ss ++ r) = ⟨r, ss.filterMap sigilMode⟩)
    ∧ (splitWhitespace "@alice +bob carol".toList).map parse_channel_user =
        [⟨"alice".toList, ["op".toList]⟩, ⟨"bob".toList, ["voice".toList]⟩,
          ⟨"carol".toList, []⟩] := by
  refine ⟨?_, by decide⟩
  intro ss r hss hr
  induction ss with
  | nil =>
    simp only [List.nil_append, List.filterMap_nil]
    cases r with
    | nil => rfl
    | cons c cs =>
      have hc : sigilMode c = none := hr c rfl
      simp [parse_channel_user, hc]
  | cons c ss' ih =>
    have hc : (sigilMode c).isSome := hss c (List.mem_cons_self c ss')
    obtain ⟨m, hm⟩ := Option.isSome_iff_exists.mp hc
    have ih' := ih fun d hd => hss d (List.mem_cons_of_mem c hd)
    simp [parse_channel_user, hm, ih']

/-- Witness for C8: the general sigil-prefix statement applied at the
concrete entry `"@alice"`. -/
theorem parse_channel_user_spec_witness :
    parse_channel_user (['@'] ++ "alice".toList) =
      ⟨"alice".toList, ["op".toList]⟩ := by
  have h := parse_channel_user_spec.1 ['@'] "alice".toList (by decide) (by decide)
  rw [h]; decide

/-- Model of `MessageKind` (messages.rs:3-16). -/
inductive MessageKind
  | privmsg
  | action
  | notice
  | join
  | part
  | quit
  | nick
  | topic
  | info
  | error
deriving DecidableEq

/-- Model of `ChatMessage` (messages.rs:18-28).  The engine only ever
constructs records with `metadata = None` (`serde_json::Value` payloads are
never produced by this code), so the metadata payload is modelled by
`Unit`. -/
structure ChatMessage where
  connection_id : List Char
  target : List Char
  sender : Option (List Char)
  message : List Char
  kind : MessageKind
  timestamp : Int
  metadata : Option Unit
deriving DecidableEq

/-- Model of `IrcEvent` (messages.rs:37-70). -/
inductive IrcEvent
  | connected (connection_id nickname server : List Char)
      (message : Option (List Char))
  | disconnected (connection_id : List Char) (reason : Option (List Char))
  | message (data : ChatMessage)
  | names (connection_id channel : List Char) (users : List ChannelUserInfo)
  | topic (connection_id channel topicText : List Char)
      (setter : Option (List Char))
  | error (connection_id message : List Char)
deriving DecidableEq

/-- Model of `ConnectionConfig` (connection.rs:21-32); `port : u16` is
modelled as `Nat`. -/
structure ConnectionConfig where
  server : List Char
  port : Nat
  use_tls : Bool
  nickname : List Char
  username : Option (List Char)
  realname : Option (List Char)
  password : Option (List Char)
  auto_join : List (List Char)
deriving DecidableEq

/-- Output of one `handle_line` call (connection.rs:479-709): the wire
lines written, the events emitted (in emission order), and the
ChatMessages appended to scrollback.  The relative order between a write
and an event of the same arm is not represented. -/
structure HandleOut where
  writes : List (List Char)
  events : List IrcEvent
  appends : List ChatMessage
deriving DecidableEq

/-- The CTCP delimiter `'\u{1}'` used in the PRIVMSG arm. -/
def ctrlA : Char := Char.ofNat 1

/-- Model of `str::trim_matches(c)`: drop every leading and trailing
occurrence of `c`. -/
def trimMatches (x : Char) (l : List Char) : List Char :=
  ((l.dropWhile (· = x)).reverse.dropWhile (· = x)).reverse

/-- Model of `str::strip_prefix`: when `p` is a prefix of `l`, the rest of
`l`, otherwise `none`. -/
def stripPfx : List Char → List Char → Option (List Char)
  | [], l => some l
  | _ :: _, [] => none
  | p :: ps, c :: cs => if p = c then stripPfx ps cs else none

/-- Model of the dispatch on `parsed.command.as_str()` inside `handle_line`
(connection.rs:488-707).  `cid` is the connection id, `now` the value of
`current_timestamp()` at the call; fallible writes/appends are modelled as
always recorded since their errors are swallowed by the source. -/
def handle_parsed (cid : List Char) (cfg : ConnectionConfig) (now : Int)
    (p : ParsedMessage) : HandleOut :=
  if p.command = "PING".toList then
    match (p.params.get? 0).or p.trailing with
    | some arg => ⟨["PONG :".toList ++ arg], [], []⟩
    | none => ⟨[], [], []⟩
  else if p.command = "001".toList then
    ⟨cfg.auto_join.map (fun ch => "JOIN ".toList ++ ch),
     [IrcEvent.connected cid cfg.nickname cfg.server (some "welcome".toList)],
     []⟩
  else if p.command = "353".toList then
    if 3 ≤ p.params.length then
      ⟨[], [IrcEvent.names cid (p.params.getD 2 [])
              ((splitWhitespace (p.trailing.getD [])).map parse_channel_user)],
       []⟩
    else ⟨[], [], []⟩
  else if p.command = "332".toList then
    if 2 ≤ p.params.length then
      let channel := p.params.getD 1 []
      let topicText := p.trailing.getD []
      let m : ChatMessage :=
        ⟨cid, channel, none, "Topic: ".toList ++ topicText, MessageKind.topic,
          now, none⟩
      ⟨[], [IrcEvent.topic cid channel topicText none, IrcEvent.message m], [m]⟩
    else ⟨[], [], []⟩
  else if p.command = "PRIVMSG".toList then
    match p.params.get? 0 with
    | some target_raw =>
      let message0 := (p.trailing.or (p.params.get? 1)).getD []
      let mk :=
        if message0.head? = some ctrlA ∧ message0.getLast? = some ctrlA then
          let body := trimMatches ctrlA message0
          match stripPfx "ACTION ".toList body with
          | some rest => (rest, MessageKind.action)
          | none => (message0, MessageKind.privmsg)
        else (message0, MessageKind.privmsg)
      let sender := p.pfx.bind extract_nick
      let tgt :=
        match sender with
        | some s =>
          if eq_ignore_ascii_case target_raw cfg.nickname then s else target_raw
        | none => target_raw
      let m : ChatMessage := ⟨cid, tgt, sender, mk.1, mk.2, now, none⟩
      ⟨[], [IrcEvent.message m], [m]⟩
    | none => ⟨[], [], []⟩
  else if p.command = "NOTICE".toList then
    match p.params.get? 0 with
    | some target =>
      let message := (p.trailing.or (p.params.get? 1)).getD []
      let m : ChatMessage :=
        ⟨cid, target, p.pfx.bind extract_nick, message, MessageKind.notice,
          now, none⟩
      ⟨[], [IrcEvent.message m], [m]⟩
    | none => ⟨[], [], []⟩
  else if p.command = "JOIN".toList then
    let channel := ((p.params.get? 0).or p.trailing).getD []
    let nick := (p.pfx.bind extract_nick).getD cfg.nickname
    let m : ChatMessage :=
      ⟨cid, channel, some nick, nick ++ " joined ".toList ++ channel,
        MessageKind.join, now, none⟩
    ⟨[], [IrcEvent.message m], [m]⟩
  else if p.command = "PART".toList then
    match p.params.get? 0 with
    | some channel =>
      let nick := (p.pfx.bind extract_nick).getD cfg.nickname
      let reason := ((p.params.get? 1).or p.trailing).getD []
      let text := nick ++ " left ".toList ++ channel ++
        (if reason = [] then [] else " (".toList ++ reason ++ ")".toList)
      let m : ChatMessage :=
        ⟨cid, channel, some nick, text, MessageKind.part, now, none⟩
      ⟨[], [IrcEvent.message m], [m]⟩
    | none => ⟨[], [], []⟩
  else if p.command = "QUIT".toList then
    let nick := (p.pfx.bind extract_nick).getD cfg.nickname
    let reason := ((p.params.get? 0).or p.trailing).getD []
    let text :=
      if reason = [] then nick ++ " quit".toList
      else nick ++ " quit: ".toList ++ reason
    let m : ChatMessage :=
      ⟨cid, nick, some nick, text, MessageKind.quit, now, none⟩
    ⟨[], [IrcEvent.message m], [m]⟩
  else if p.command = "433".toList then
    ⟨[], [IrcEvent.error cid "nickname already in use".toList], []⟩
  else ⟨[], [], []⟩

/-- Model of `handle_line` (connection.rs:479-709): parse the inbound line
and dispatch on its command. -/
def handle_line (cid : List Char) (cfg : ConnectionConfig) (now : Int)
    (line : List Char) : HandleOut :=
  handle_parsed cid cfg now (parse_message line)

/-- Sample configuration used by concrete witnesses. -/
def sampleCfg : ConnectionConfig :=
  ⟨"irc.example.org".toList, 6667, false, "alice".toList, none, none, none, []⟩

/-- Counterexample for C4: on a concrete 332 reply the appended+emitted
ChatMessage has kind `Topic`, not `Info` as the claim states. -/
theorem topic_332_kind_counterexample :
    (handle_line "c1".toList sampleCfg 0 ":srv 332 alice #chan :hi".toList).appends.map
        ChatMessage.kind = [MessageKind.topic]
    ∧ MessageKind.topic ≠ MessageKind.info := by
  decide

/-- C4 (amended): for every inbound 332 reply with at least two parameters,
the worker emits a Topic event for the channel named in the 2nd parameter
and appends+emits a ChatMessage whose text is `"Topic: {topic}"` and whose
kind is `Topic`. -/
theorem topic_332_emits_topic_kind (cid : List Char) (cfg : ConnectionConfig)
    (now : Int) (line : List Char)
    (hc : (parse_message line).command = "332".toList)
    (hlen : 2 ≤ (parse_message line).params.length) :
    handle_line cid cfg now line =
      ⟨[], [IrcEvent.topic cid ((parse_message line).params.getD 1 [])
              ((parse_message line).trailing.getD []) none,
            IrcEvent.message ⟨cid, (parse_message line).params.getD 1 [], none,
              "Topic: ".toList ++ (parse_message line).trailing.getD [],
              MessageKind.topic, now, none⟩],
        [⟨cid, (parse_message line).params.getD 1 [], none,
          "Topic: ".toList ++ (parse_message line).trailing.getD [],
          MessageKind.topic, now, none⟩]⟩ := by
  have h1 : ¬ ((parse_message line).command = "PING".toList) := by rw [hc]; decide
  have h2 : ¬ ((parse_message line).command = "001".toList) := by rw [hc]; decide
  have h3 : ¬ ((parse_message line).command = "353".toList) := by rw [hc]; decide
  simp only [handle_line, handle_parsed]
  rw [if_neg h1, if_neg h2, if_neg h3, if_pos hc, if_pos hlen]

/-- Witness for C4 (amended) at a concrete 332 reply. -/
theorem topic_332_emits_topic_kind_witness :
    handle_line "c1".toList sampleCfg 7 ":srv 332 alice #chan :hi all".toList =
      ⟨[], [IrcEvent.topic "c1".toList "#chan".toList "hi all".toList none,
            IrcEvent.message ⟨"c1".toList, "#chan".toList, none,
              "Topic: hi all".toList, MessageKind.topic, 7, none⟩],
        [⟨"c1".toList, "#chan".toList, none, "Topic: hi all".toList,
          MessageKind.topic, 7, none⟩]⟩ := by
  rw [topic_332_emits_topic_kind "c1".toList sampleCfg 7
    ":srv 332 alice #chan :hi all".toList (by decide) (by decide)]
  decide

/-- C7: an inbound PRIVMSG whose target equals the configured nickname
under ASCII-case-insensitive comparison has the appended+emitted
ChatMessage's target rewritten to the sender's nick extracted from the
prefix; any other target is left unchanged (and with no extractable sender
the target is always unchanged). -/
theorem privmsg_retarget (cid : List Char) (cfg : ConnectionConfig)
    (now : Int) (line : List Char) (target : List Char)
    (hc : (parse_message line).command = "PRIVMSG".toList)
    (ht : (parse_message line).params.get? 0 = some target) :
    (∀ snd : List Char, (parse_message line).pfx.bind extract_nick = some snd →
      (handle_line cid cfg now line).events =
          (handle_line cid cfg now line).appends.map IrcEvent.message
        ∧ (handle_line cid cfg now line).appends.map ChatMessage.target =
            [if eq_ignore_ascii_case target cfg.nickname then snd else target])
    ∧ ((parse_message line).pfx.bind extract_nick = none →
        (handle_line cid cfg now line).appends.map ChatMessage.target =
          [target]) := by
  have h1 : ¬ ((parse_message line).command = "PING".toList) := by rw [hc]; decide
  have h2 : ¬ ((parse_message line).command = "001".toList) := by rw [hc]; decide
  have h3 : ¬ ((parse_message line).command = "353".toList) := by rw [hc]; decide
  have h4 : ¬ ((parse_message line).command = "332".toList) := by rw [hc]; decide
  constructor
  · intro snd hs
    simp only [handle_line, handle_parsed]
    rw [if_neg h1, if_neg h2, if_neg h3, if_neg h4, if_pos hc, ht, hs]
    exact ⟨rfl, rfl⟩
  · intro hs
    simp only [handle_line, handle_parsed]
    rw [if_neg h1, if_neg h2, if_neg h3, if_neg h4, if_pos hc, ht, hs]
    rfl

/-- Witness for C7: the direct message `":bob!u@h PRIVMSG Alice :hi"`
against configured nickname `alice` is re-filed under sender `bob`. -/
theorem privmsg_retarget_witness :
    (handle_line "c1".toList sampleCfg 0 ":bob!u@h PRIVMSG Alice :hi".toList).appends.map
      ChatMessage.target = ["bob".toList] := by
  have h := (privmsg_retarget "c1".toList sampleCfg 0
    ":bob!u@h PRIVMSG Alice :hi".toList "Alice".toList (by decide) (by decide)).1
    "bob".toList (by decide)
  rw [h.2]; decide

/-- Model of `ConnectionCommand` (connection.rs:40-58). -/
inductive ConnectionCommand
  | join (channel : List Char)
  | part (channel : List Char) (reason : Option (List Char))
  | privmsg (target message : List Char)
  | topic (channel : List Char) (topicText : Option (List Char))
  | quit (reason : Option (List Char))

/-- One ready arm of the worker's `select!` in `connection_task`
(connection.rs:304-409).  A schedule of the steady-state loop is a list of
these; exhausting the list models the `else` branch (both the inbound
stream and the inbox closed simultaneously). -/
inductive LoopInput
  | line (l : List Char)
  | eof
  | ioError (e : List Char)
  | cmd (c : ConnectionCommand)

/-- Concatenate the outputs of two successive loop steps. -/
def appendOut (a b : HandleOut) : HandleOut :=
  ⟨a.writes ++ b.writes, a.events ++ b.events, a.appends ++ b.appends⟩

/-- The locally synthesized echo of an outbound Privmsg
(connection.rs:363-371). -/
def privmsgEcho (cid : List Char) (cfg : ConnectionConfig) (now : Int)
    (target message : List Char) : ChatMessage :=
  ⟨cid, target, some cfg.nickname, message, MessageKind.privmsg, now, none⟩

/-- Model of the steady-state loop of `connection_task`
(connection.rs:304-419) run against a schedule of ready arms.  `eof`
(`Ok(None)`), a read error and a `Quit` command emit Disconnected and
break; an exhausted schedule models the `else` branch, after which the
post-loop `if !disconnected` check emits Disconnected.  Write and append
failures are swallowed in the source, so the model records every
write/append unconditionally. -/
def runLoop (cid : List Char) (cfg : ConnectionConfig) (now : Int) :
    List LoopInput → HandleOut
  | [] => ⟨[], [IrcEvent.disconnected cid (some "connection closed".toList)], []⟩
  | LoopInput.line l :: rest =>
      appendOut (handle_line cid cfg now l) (runLoop cid cfg now rest)
  | LoopInput.eof :: _ =>
      ⟨[], [IrcEvent.disconnected cid (some "connection closed".toList)], []⟩
  | LoopInput.ioError e :: _ =>
      ⟨[], [IrcEvent.disconnected cid (some ("read error: ".toList ++ e))], []⟩
  | LoopInput.cmd (ConnectionCommand.join ch) :: rest =>
      appendOut ⟨["JOIN ".toList ++ ch], [], []⟩ (runLoop cid cfg now rest)
  | LoopInput.cmd (ConnectionCommand.part ch (some r)) :: rest =>
      appendOut ⟨["PART ".toList ++ ch ++ " :".toList ++ r], [], []⟩
        (runLoop cid cfg now rest)
  | LoopInput.cmd (ConnectionCommand.part ch none) :: rest =>
      appendOut ⟨["PART ".toList ++ ch], [], []⟩ (runLoop cid cfg now rest)
  | LoopInput.cmd (ConnectionCommand.privmsg t m) :: rest =>
      appendOut ⟨["PRIVMSG ".toList ++ t ++ " :".toList ++ m],
        [IrcEvent.message (privmsgEcho cid cfg now t m)],
        [privmsgEcho cid cfg now t m]⟩ (runLoop cid cfg now rest)
  | LoopInput.cmd (ConnectionCommand.topic ch (some tx)) :: rest =>
      appendOut ⟨["TOPIC ".toList ++ ch ++ " :".toList ++ tx], [], []⟩
        (runLoop cid cfg now rest)
  | LoopInput.cmd (ConnectionCommand.topic ch none) :: rest =>
      appendOut ⟨["TOPIC ".toList ++ ch], [], []⟩ (runLoop cid cfg now rest)
  | LoopInput.cmd (ConnectionCommand.quit r) :: _ =>
      ⟨[(match r with
         | some rt => "QUIT :".toList ++ rt
         | none => "QUIT".toList)],
        [IrcEvent.disconnected cid r], []⟩

/-- Recognize a Disconnected event. -/
def isDisc : IrcEvent → Bool
  | IrcEvent.disconnected _ _ => true
  | _ => false

/-- Number of Disconnected events in an emission trace. -/
def countDisc (l : List IrcEvent) : Nat := (l.filter isDisc).length

theorem countDisc_append (a b : List IrcEvent) :
    countDisc (a ++ b) = countDisc a + countDisc b := by
  simp [countDisc, List.filter_append]

theorem handle_parsed_no_disconnect (cid : List Char) (cfg : ConnectionConfig)
    (now : Int) (p : ParsedMessage) :
    countDisc (handle_parsed cid cfg now p).events = 0 := by
  unfold handle_parsed
  by_cases h1 : p.command = "PING".toList
  · rw [if_pos h1]; repeat' split
    all_goals simp [countDisc, isDisc]
  rw [if_neg h1]
  by_cases h2 : p.command = "001".toList
  · rw [if_pos h2]; simp [countDisc, isDisc]
  rw [if_neg h2]
  by_cases h3 : p.command = "353".toList
  · rw [if_pos h3]; repeat' split
    all_goals simp [countDisc, isDisc]
  rw [if_neg h3]
  by_cases h4 : p.command = "332".toList
  · rw [if_pos h4]; repeat' split
    all_goals simp [countDisc, isDisc]
  rw [if_neg h4]
  by_cases h5 : p.command = "PRIVMSG".toList
  · rw [if_pos h5]; repeat' split
    all_goals simp [countDisc, isDisc]
  rw [if_neg h5]
  by_cases h6 : p.command = "NOTICE".toList
  · rw [if_pos h6]; repeat' split
    all_goals simp [countDisc, isDisc]
  rw [if_neg h6]
  by_cases h7 : p.command = "JOIN".toList
  · rw [if_pos h7]; simp [countDisc, isDisc]
  rw [if_neg h7]
  by_cases h8 : p.command = "PART".toList
  · rw [if_pos h8]; repeat' split
    all_goals simp [countDisc, isDisc]
  rw [if_neg h8]
  by_cases h9 : p.command = "QUIT".toList
  · rw [if_pos h9]; simp [countDisc, isDisc]
  rw [if_neg h9]
  by_cases h10 : p.command = "433".toList
  · rw [if_pos h10]; simp [countDisc, isDisc]
  rw [if_neg h10]
  simp [countDisc, isDisc]

theorem handle_line_no_disconnect (cid : List Char) (cfg : ConnectionConfig)
    (now : Int) (line : List Char) :
    countDisc (handle_line cid cfg now line).events = 0 :=
  handle_parsed_no_disconnect cid cfg now (parse_message line)

/-- C3: over every schedule of the steady-state loop the worker emits
exactly one Disconnected event — in particular a Quit command (even with
the peer's socket already closed, since write failures are swallowed) and
the uncovered `else` exit both yield exactly one, never zero or two. -/
theorem worker_loop_exactly_one_disconnected (cid : List Char)
    (cfg : ConnectionConfig) (now : Int) (inputs : List LoopInput) :
    countDisc (runLoop cid cfg now inputs).events = 1 := by
  induction inputs with
  | nil => simp [runLoop, countDisc, isDisc]
  | cons i rest ih =>
    cases i with
    | line l =>
      simp [runLoop, appendOut, countDisc_append, handle_line_no_disconnect, ih]
    | eof => simp [runLoop, countDisc, isDisc]
    | ioError e => simp [runLoop, countDisc, isDisc]
    | cmd c =>
      cases c with
      | join ch =>
        simp [runLoop, appendOut, countDisc_append, countDisc, isDisc]
        simpa [countDisc] using ih
      | part ch r =>
        cases r with
        | some rt =>
          simp [runLoop, appendOut, countDisc_append, countDisc, isDisc]
          simpa [countDisc] using ih
        | none =>
          simp [runLoop, appendOut, countDisc_append, countDisc, isDisc]
          simpa [countDisc] using ih
      | privmsg t m =>
        simp [runLoop, appendOut, countDisc_append, countDisc, isDisc]
        simpa [countDisc] using ih
      | topic ch tx =>
        cases tx with
        | some t =>
          simp [runLoop, appendOut, countDisc_append, countDisc, isDisc]
          simpa [countDisc] using ih
        | none =>
          simp [runLoop, appendOut, countDisc_append, countDisc, isDisc]
          simpa [countDisc] using ih
      | quit r => simp [runLoop, countDisc, isDisc]

/-- Model of `ConnectionConfig::storage_key` (connection.rs:35-37):
`"{server}:{port}:{nickname}"`. -/
def storage_key (c : ConnectionConfig) : List Char :=
  c.server ++ ':' :: (Nat.repr c.port).toList ++ ':' :: c.nickname

/-- Registry view of a `ConnectionHandle` (connection.rs:60-95): its id,
its storage key, and whether the worker end of its command channel is
still open (`send` on a closed channel is the only failure of
`ConnectionHandle::disconnect`). -/
structure Conn where
  id : List Char
  storageKey : List Char
  senderOpen : Bool
deriving DecidableEq

/-- State of the full `AppState` as far as the registry claims need it:
the `ConnectionManager` map (modelled as a list, most recently inserted
first), the `ConfigStore` contents, a counter deriving fresh ids
(modelling `Uuid::new_v4`, whose output is used only as an opaque token),
and the number of workers spawned so far. -/
structure ManagerState where
  conns : List Conn
  configs : List ConnectionConfig
  nextId : Nat
  spawned : Nat
deriving DecidableEq

/-- Model of `ConnectionManager::get` (connection.rs:128-130). -/
def getConn (id : List Char) (conns : List Conn) : Option Conn :=
  conns.find? fun c => c.id == id

/-- Model of `ConnectionManager::remove` (connection.rs:132-134): the
removed handle, if any, and the remaining map. -/
def removeConn (id : List Char) : List Conn → Option Conn × List Conn
  | [] => (none, [])
  | c :: rest =>
    if c.id = id then (some c, rest)
    else
      let r := removeConn id rest
      (r.1, c :: r.2)

/-- Model of `ConnectionManager::find_by_config` (connection.rs:143-151):
first handle whose storage key matches the config's. -/
def find_by_config (conns : List Conn) (cfg : ConnectionConfig) : Option Conn :=
  conns.find? fun c => c.storageKey == storage_key cfg

/-- Three-way comparison of strings, modelling Rust `String::cmp`. -/
def cmpChars : List Char → List Char → Ordering
  | [], [] => Ordering.eq
  | [], _ :: _ => Ordering.lt
  | _ :: _, [] => Ordering.gt
  | a :: as_, b :: bs =>
    match compare a b with
    | Ordering.eq => cmpChars as_ bs
    | o => o

/-- The comparator of `ConfigStore::upsert`'s `sort_by`
(config_store.rs:50-60): (server, port, nickname) lexicographically. -/
def cfgCmp (a b : ConnectionConfig) : Ordering :=
  match cmpChars a.server b.server with
  | Ordering.eq =>
    match compare a.port b.port with
    | Ordering.eq => cmpChars a.nickname b.nickname
    | o => o
  | o => o

/-- Insert into a sorted config list (model of the effect of Rust's stable
`sort_by` after a single push/replace). -/
def insertCfg (c : ConnectionConfig) : List ConnectionConfig → List ConnectionConfig
  | [] => [c]
  | e :: rest =>
    if cfgCmp c e = Ordering.gt then e :: insertCfg c rest else c :: e :: rest

/-- Insertion sort by `cfgCmp`. -/
def sortCfgs : List ConnectionConfig → List ConnectionConfig
  | [] => []
  | e :: rest => insertCfg e (sortCfgs rest)

/-- The find-and-replace-or-push step of `ConfigStore::upsert`
(config_store.rs:41-49), keyed by (server, port, nickname). -/
def upsertRaw : List ConnectionConfig → ConnectionConfig → List ConnectionConfig
  | [], cfg => [cfg]
  | e :: rest, cfg =>
    if e.server = cfg.server ∧ e.port = cfg.port ∧ e.nickname = cfg.nickname
    then cfg :: rest
    else e :: upsertRaw rest cfg

/-- Model of `ConfigStore::upsert` (config_store.rs:39-63): replace or push,
then sort; the on-disk `persist` is modelled as succeeding. -/
def upsertConfigs (l : List ConnectionConfig) (cfg : ConnectionConfig) :
    List ConnectionConfig :=
  sortCfgs (upsertRaw l cfg)

/-- Fresh connection identifier (model of `Uuid::new_v4().to_string()`,
used only as an opaque token). -/
def genId (n : Nat) : List Char := (Nat.repr n).toList

/-- Model of `ConnectionManager::connect` (connection.rs:218-250): generate
a fresh id, spawn a worker (counted by `spawned`), register the handle,
return the id. -/
def managerConnect (s : ManagerState) (cfg : ConnectionConfig) :
    List Char × ManagerState :=
  let newId := genId s.nextId
  (newId,
    { s with conns := ⟨newId, storage_key cfg, true⟩ :: s.conns,
             nextId := s.nextId + 1,
             spawned := s.spawned + 1 })

/-- Model of the `irc_connect` command (commands.rs:65-89): upsert the
config, then return the existing handle's id when one matches the identity
key, else connect. -/
def ircConnect (s : ManagerState) (cfg : ConnectionConfig) :
    List Char × ManagerState :=
  let s1 : ManagerState := { s with configs := upsertConfigs s.configs cfg }
  match find_by_config s1.conns cfg with
  | some c => (c.id, s1)
  | none => managerConnect s1 cfg

/-- Model of `ConnectionManager::disconnect` (connection.rs:153-167):
remove the handle; when one was present, send Quit (failing with
"connection channel closed" when the channel is closed, in which case the
error propagates before any emit) and then emit Disconnected; when the id
is unknown, fall through to `Ok(())` with no event. -/
def mgrDisconnect (s : ManagerState) (id : List Char)
    (reason : Option (List Char)) :
    Except (List Char) Unit × List IrcEvent × ManagerState :=
  match removeConn id s.conns with
  | (some c, rest) =>
    if c.senderOpen then
      (Except.ok (), [IrcEvent.disconnected id reason], { s with conns := rest })
    else
      (Except.error "connection channel closed".toList, [],
        { s with conns := rest })
  | (none, _) => (Except.ok (), [], s)

theorem removeConn_not_found (id : List Char) (conns : List Conn)
    (h : ∀ c ∈ conns, c.id ≠ id) : removeConn id conns = (none, conns) := by
  induction conns with
  | nil => rfl
  | cons c rest ih =>
    have hc : c.id ≠ id := h c (List.mem_cons_self c rest)
    have hrest := ih fun d hd => h d (List.mem_cons_of_mem c hd)
    simp [removeConn, hc, hrest]

/-- Sample populated registry state used by concrete C1 theorems. -/
def sampleState : ManagerState :=
  ⟨[⟨"a1".toList, "k1".toList, true⟩], [], 1, 1⟩

/-- Counterexample for C1: on a concrete state, Disconnect of an unknown
connection id succeeds (returns Ok, not a NotFound-class error) and emits
no event — the claim's "fails with NotFound" is false. -/
theorem disconnect_unknown_counterexample :
    getConn "zzz".toList sampleState.conns = none
    ∧ mgrDisconnect sampleState "zzz".toList none =
        (Except.ok (), [], sampleState) := by
  exact ⟨rfl, rfl⟩

/-- C1 (amended): for every unknown connection id, the Registry's
Disconnect is a silent no-op: it returns Ok (not an error), emits no
event, and leaves the registry unchanged. -/
theorem disconnect_unknown_silent (s : ManagerState) (id : List Char)
    (reason : Option (List Char)) (h : ∀ c ∈ s.conns, c.id ≠ id) :
    mgrDisconnect s id reason = (Except.ok (), [], s) := by
  unfold mgrDisconnect
  rw [removeConn_not_found id s.conns h]

/-- Witness for C1 (amended) on the concrete sample state. -/
theorem disconnect_unknown_silent_witness :
    mgrDisconnect sampleState "zzz2".toList (some "bye".toList) =
      (Except.ok (), [], sampleState) :=
  disconnect_unknown_silent sampleState "zzz2".toList (some "bye".toList)
    (by decide)

/-- C2: issuing Connect twice with the same config returns the same
connection id the second time, spawns no second worker and registers no
second handle. -/
theorem connect_idempotent (s : ManagerState) (cfg : ConnectionConfig) :
    (ircConnect (ircConnect s cfg).2 cfg).1 = (ircConnect s cfg).1
    ∧ (ircConnect (ircConnect s cfg).2 cfg).2.conns = (ircConnect s cfg).2.conns
    ∧ (ircConnect (ircConnect s cfg).2 cfg).2.spawned =
        (ircConnect s cfg).2.spawned := by
  cases hf : find_by_config s.conns cfg with
  | some c =>
    simp [ircConnect, hf]
  | none =>
    have hfind : find_by_config
        (⟨genId s.nextId, storage_key cfg, true⟩ :: s.conns) cfg =
        some ⟨genId s.nextId, storage_key cfg, true⟩ := by
      simp [find_by_config, List.find?]
    simp [ircConnect, hf, managerConnect, hfind]

/-- The character class kept verbatim by `sanitize_component`
(storage.rs:96). -/
def isAllowedChar (c : Char) : Bool :=
  ('a' ≤ c ∧ c ≤ 'z') ∨ ('A' ≤ c ∧ c ≤ 'Z') ∨ ('0' ≤ c ∧ c ≤ '9')
    ∨ c = '-' ∨ c = '_' ∨ c = '.'

/-- Model of `sanitize_component` (storage.rs:92-104): replace every
character outside the allowed class with `'_'`; an empty result (i.e. an
empty input) becomes `"_"`. -/
def sanitize_component (input : List Char) : List Char :=
  let s := input.map (fun c => if isAllowedChar c then c else '_')
  if s = [] then ['_'] else s

/-- Model of `ScrollbackStore::target_path` (storage.rs:26-32): the path
relative to the store's base directory, as the pair (sanitized storage
key, sanitized target + ".jsonl"). -/
def target_path (sk target : List Char) : List Char × List Char :=
  (sanitize_component sk, sanitize_component target ++ ".jsonl".toList)

/-- The scrollback file system: content of each per-target jsonl file as
the sequence of ChatMessages its lines decode to.  The serde_json
line-per-message layer is modelled as the identity on messages, per
serde's round-trip contract; an absent file and an empty file coincide
(both read back as the empty sequence, as in `read_last`). -/
def Fs : Type := List Char × List Char → List ChatMessage

/-- A store with no files yet. -/
def emptyFs : Fs := fun _ => []

/-- Model of `ScrollbackStore::append` (storage.rs:34-54): append one
serialized message to the file at `target_path(storage_key,
message.target)` (creating it if absent). -/
def appendMsg (fs : Fs) (sk : List Char) (m : ChatMessage) : Fs :=
  fun p => if p = target_path sk m.target then fs p ++ [m] else fs p

/-- Append a batch of messages in order. -/
def appendAll (fs : Fs) (sk : List Char) (ms : List ChatMessage) : Fs :=
  ms.foldl (fun f m => appendMsg f sk m) fs

/-- Model of `ScrollbackStore::read_last` (storage.rs:56-89): the file's
messages, truncated to the last `limit` when given and exceeded; an
absent file yields the empty sequence. -/
def read_last (fs : Fs) (sk target : List Char) (limit : Option Nat) :
    List ChatMessage :=
  let messages := fs (target_path sk target)
  match limit with
  | some l => if l < messages.length then messages.drop (messages.length - l)
              else messages
  | none => messages

theorem appendAll_apply (sk tgt : List Char) :
    ∀ (ms : List ChatMessage) (fs : Fs), (∀ m ∈ ms, m.target = tgt) →
      appendAll fs sk ms (target_path sk tgt) =
        fs (target_path sk tgt) ++ ms := by
  intro ms
  induction ms with
  | nil => intro fs _; simp [appendAll]
  | cons m ms' ih =>
    intro fs htgt
    have hm : m.target = tgt := htgt m (List.mem_cons_self m ms')
    have hstep : appendAll fs sk (m :: ms') = appendAll (appendMsg fs sk m) sk ms' := rfl
    rw [hstep, ih (appendMsg fs sk m) fun d hd => htgt d (List.mem_cons_of_mem m hd)]
    simp [appendMsg, hm]

/-- C9: appending N ChatMessages for a (storageKey, target) to a store with
no prior content for that target and reading back with no limit returns
exactly those N in append order; with limit k < N exactly the last k; and
readLast on an absent file returns the empty sequence. -/
theorem scrollback_roundtrip (fs : Fs) (sk tgt : List Char)
    (ms : List ChatMessage) (k : Nat)
    (hempty : fs (target_path sk tgt) = [])
    (htgt : ∀ m ∈ ms, m.target = tgt) :
    read_last (appendAll fs sk ms) sk tgt none = ms
    ∧ (k < ms.length →
        read_last (appendAll fs sk ms) sk tgt (some k) =
          ms.drop (ms.length - k))
    ∧ ∀ lim, read_last emptyFs sk tgt lim = [] := by
  have hall : appendAll fs sk ms (target_path sk tgt) = ms := by
    rw [appendAll_apply sk tgt ms fs htgt, hempty]; simp
  refine ⟨?_, ?_, ?_⟩
  · simp [read_last, hall]
  · intro hk
    simp [read_last, hall, if_pos hk]
  · intro lim
    cases lim with
    | none => rfl
    | some l => simp [read_last, emptyFs]

/-- Concrete messages used by the C9 witness. -/
def msgA : ChatMessage :=
  ⟨"i".toList, "#c".toList, none, "x".toList, MessageKind.privmsg, 0, none⟩

/-- Second concrete message used by the C9 witness. -/
def msgB : ChatMessage :=
  ⟨"i".toList, "#c".toList, some "bob".toList, "y".toList,
    MessageKind.notice, 1, none⟩

/-- Witness for C9 with two concrete appended messages and limit 1. -/
theorem scrollback_roundtrip_witness :
    read_last (appendAll emptyFs "k".toList [msgA, msgB]) "k".toList
        "#c".toList none = [msgA, msgB]
    ∧ read_last (appendAll emptyFs "k".toList [msgA, msgB]) "k".toList
        "#c".toList (some 1) = [msgB]
    ∧ read_last emptyFs "k".toList "#c".toList (some 5) = [] := by
  have h := scrollback_roundtrip emptyFs "k".toList "#c".toList [msgA, msgB] 1
    rfl (by decide)
  refine ⟨h.1, ?_, h.2.2 (some 5)⟩
  have h2 := h.2.1 (by decide)
  rw [h2]; rfl

/-- Counterexample for C10: the all-replaced component `"##"` sanitizes to
`"__"`, not to the single character `"_"` the claim states. -/
theorem sanitize_all_replaced_counterexample :
    sanitize_component "##".toList = "__".toList
    ∧ sanitize_component "##".toList ≠ "_".toList := by
  decide

/-- C10 (amended): append and readLast locate the scrollback file by
sanitizing both path components, replacing every character outside ASCII
letters, digits, '-', '_', '.' with '_' (only an empty component becomes
"_"; an all-replaced component becomes one '_' per character);
consequently two distinct targets with the same sanitized form — e.g.
"#chan" and "&chan" — share one append stream, and readLast for one
returns messages appended under the other. -/
theorem sanitize_collision :
    (∀ input : List Char, input ≠ [] →
      sanitize_component input =
        input.map (fun c => if isAllowedChar c then c else '_'))
    ∧ sanitize_component [] = ['_']
    ∧ (∀ sk t1 t2 : List Char, sanitize_component t1 = sanitize_component t2 →
        target_path sk t1 = target_path sk t2)
    ∧ (∀ (fs : Fs) (sk t1 t2 : List Char) (m : ChatMessage),
        sanitize_component t1 = sanitize_component t2 → m.target = t1 →
        read_last (appendMsg fs sk m) sk t2 none =
          read_last fs sk t2 none ++ [m])
    ∧ sanitize_component "#chan".toList = sanitize_component "&chan".toList
    ∧ "#chan".toList ≠ "&chan".toList := by
  have hpath : ∀ sk t1 t2 : List Char,
      sanitize_component t1 = sanitize_component t2 →
      target_path sk t1 = target_path sk t2 := by
    intro sk t1 t2 h
    simp [target_path, h]
  refine ⟨?_, rfl, hpath, ?_, by decide, by decide⟩
  · intro input hne
    simp [sanitize_component, hne]
  · intro fs sk t1 t2 m h hm
    have hp : target_path sk m.target = target_path sk t2 := by
      rw [hm]; exact hpath sk t1 t2 h
    simp [read_last, appendMsg, hp]

/-- Concrete message used by the C10 witness. -/
def msgC : ChatMessage :=
  ⟨"i".toList, "#chan".toList, none, "z".toList, MessageKind.privmsg, 2, none⟩

/-- Witness for C10 (amended): appending under `"#chan"` is visible to a
read of `"&chan"`. -/
theorem sanitize_collision_witness :
    target_path "k".toList "#chan".toList = target_path "k".toList "&chan".toList
    ∧ read_last (appendMsg emptyFs "k".toList msgC) "k".toList "&chan".toList
        none = read_last emptyFs "k".toList "&chan".toList none ++ [msgC]
    ∧ sanitize_component "x#y".toList =
        "x#y".toList.map (fun c => if isAllowedChar c then c else '_') :=
  ⟨sanitize_collision.2.2.1 "k".toList "#chan".toList "&chan".toList (by decide),
   sanitize_collision.2.2.2.1 emptyFs "k".toList "#chan".toList "&chan".toList
     msgC (by decide) rfl,
   sanitize_collision.1 "x#y".toList (by decide)⟩
